import Mathlib

/-!
Verification of the VATPAC watchlist / audit worker.

This file gives a shallow embedding in Lean 4 of the parts of the
Cloudflare-worker source (`src/unnamed/part_001`, the worker script) that the
frozen claims are about, and proves or refutes each claim.

Modelling conventions:
* JSON values are the inductive `Val`; the single store document is an
  association list `Doc` (JS objects have unique keys; lookups take the first
  binding, mirroring JS semantics even on degenerate inputs).
* JS `fetch` outcomes are supplied as explicit oracle values; functions that
  perform outbound calls additionally return the number of fetches they
  actually performed, so "performs no fetch" is expressible.
* JS exceptions are `Except String` (resp. an explicit `err` field where the
  surrounding state matters); JS `null` returns are `Option.none`.
* JS numbers that the relevant code paths produce are integers
  (epoch seconds, HTTP statuses, CID values below 10^10, all exact in IEEE
  doubles), so they are modelled as `Int` / `Nat`.
-/

/-- A JSON value, as stored in `store.json`. -/
inductive Val : Type where
  | null : Val
  | bool : Bool → Val
  | num : Int → Val
  | str : String → Val
  | arr : List Val → Val
  | obj : List (String × Val) → Val

/-- The store document: JS object from string keys to JSON values. -/
abbrev Doc := List (String × Val)

/-- First-binding lookup in an association list, i.e. JS property access. -/
def lookupA {α : Type} (d : List (String × α)) (k : String) : Option α :=
  match d with
  | [] => none
  | (k', v) :: rest => if k' = k then some v else lookupA rest k

/-- JS property assignment `d[k] = v`: replace the first binding of `k`,
or append a new binding when `k` is absent. -/
def setA {α : Type} (d : List (String × α)) (k : String) (v : α) :
    List (String × α) :=
  match d with
  | [] => [(k, v)]
  | (k', v') :: rest => if k' = k then (k', v) :: rest else (k', v') :: setA rest k v

/-- First-binding lookup on the store document. -/
abbrev lookupD (d : Doc) (k : String) : Option Val := lookupA d k

/-- Property assignment on the store document. -/
abbrev setD (d : Doc) (k : String) (v : Val) : Doc := setA d k v

/-- JS truthiness of a JSON value (`NaN` does not arise in the modelled code). -/
def truthy : Val → Bool
  | Val.null => false
  | Val.bool b => b
  | Val.num n => n ≠ 0
  | Val.str s => s ≠ ""
  | Val.arr _ => true
  | Val.obj _ => true

/-- Is the value of JS `typeof` "object" (objects, arrays and `null`)? -/
def isObjType : Val → Bool
  | Val.obj _ => true
  | Val.arr _ => true
  | Val.null => true
  | _ => false

/-- JS `v.f` restricted to `typeof v.f === "number"`: a numeric field of an
object.  Arrays and primitives have no named fields, giving `undefined`. -/
def getNumField (v : Val) (f : String) : Option Int :=
  match v with
  | Val.obj fields =>
      match lookupD fields f with
      | some (Val.num n) => some n
      | _ => none
  | _ => none

/-- Shallow merge `{ ...remote, ...GH_STORE }` from `storeFlush`: remote keys
first (overridden by local values where both exist), then local-only keys. -/
def mergeUnder (remote loc : Doc) : Doc :=
  remote.map (fun kv => (kv.1, (lookupD loc kv.1).getD kv.2)) ++
    loc.filter (fun kv => (lookupD remote kv.1).isNone)

-- ---------- Decimal digit strings (JS `Number` / `String` on CIDs) ----------

/-- The decimal digit character for `d` (`d ≥ 9` clamps to `'9'`; all uses
have `d < 10`). -/
def digitChar : Nat → Char
  | 0 => '0' | 1 => '1' | 2 => '2' | 3 => '3' | 4 => '4'
  | 5 => '5' | 6 => '6' | 7 => '7' | 8 => '8' | _ => '9'

/-- Decimal digits of `n`, most significant first, with explicit fuel so the
definition is structural (kernel-reducible); callers pass fuel `> n`. -/
def natDigitsAux : Nat → Nat → List Char
  | 0, _ => []
  | fuel + 1, n =>
      if n < 10 then [digitChar n]
      else natDigitsAux fuel (n / 10) ++ [digitChar (n % 10)]

/-- Decimal digits of `n`, most significant first. -/
def natDigits (n : Nat) : List Char := natDigitsAux (n + 1) n

/-- JS `String(n)` on a non-negative integer. -/
def jsNumToString (n : Nat) : String := String.mk (natDigits n)

/-- Numeric value of a digit character. -/
def charVal (c : Char) : Nat := c.toNat - 48

/-- Value of a decimal digit list (JS `Number` on an all-digit string). -/
def natOfDigitList (cs : List Char) : Nat :=
  cs.foldl (fun acc c => acc * 10 + charVal c) 0

/-- JS `Number(s)` on an all-digit string. -/
def natOfDigits (s : String) : Nat := natOfDigitList s.data

-- ---------- CID validation (`canonicalCID`) ----------

/-- The digits of `s` in order: `s.replace(/\D+/g, "")`. -/
def stripNonDigits (s : String) : List Char := s.data.filter Char.isDigit

/-- Source `canonicalCID`:
`const d=(s||"").replace(/\D+/g,""); if(!/^\d{3,10}$/.test(d)) return null;
return String(Number(d));` -/
def canonicalCID (s : String) : Option String :=
  let d := stripNonDigits s
  if 3 ≤ d.length ∧ d.length ≤ 10 then some (jsNumToString (natOfDigitList d))
  else none

-- ---------- Watchlist operations ----------

/-- JS `new Set(xs)` insertion order: first occurrences, in order. -/
def dedupFirst (seen : List String) : List String → List String
  | [] => []
  | x :: xs =>
      if x ∈ seen then dedupFirst seen xs
      else x :: dedupFirst (x :: seen) xs

/-- Result of an API handler that may rewrite the watchlist: HTTP status plus
the watchlist afterwards. -/
structure WlOut where
  status : Nat
  list : List String
deriving DecidableEq, Repr

/-- Source `addToWatchlist`, as a function of the request's `cid` field
(`none` models an absent field, which `canonicalCID` sees as `""` via
`s||""`), the `isValidMember` fetch outcome, and the stored watchlist.
Mirrors: canonicalise, 400 on null; member check, 404; `Set` membership,
409; else insert, sort numerically (`map(Number).sort((a,b)=>a-b).map(String)`)
and store.  `insertionSort` stands in for the JS comparison sort: both return
a `≤`-sorted permutation of the numeric values, and sorted permutations of a
list of naturals coincide, so the modelled output list is exactly the JS one. -/
def addToWatchlist (bodyCid : Option String) (valid : Bool)
    (list : List String) : WlOut :=
  match canonicalCID (bodyCid.getD "") with
  | none => ⟨400, list⟩
  | some c =>
      if ¬ valid then ⟨404, list⟩
      else
        let listSet := dedupFirst [] list
        if c ∈ listSet then ⟨409, list⟩
        else
          let next :=
            (((listSet ++ [c]).map natOfDigits).insertionSort (· ≤ ·)).map jsNumToString
          ⟨200, next⟩

/-- Source `removeFromWatchlist`: raw string comparison
`(list || []).filter(x => String(x) !== String(cid))`; 404 when nothing was
removed (no store write), else 200 with the filtered list. -/
def removeFromWatchlist (cid : String) (list : List String) : WlOut :=
  let next := list.filter (fun x => x ≠ cid)
  if next.length = list.length then ⟨404, list⟩ else ⟨200, next⟩

/-- The DELETE route of `handleAPI`: `path.match(/^\/api\/watchlist\/\d+$/)`,
and on a match the cid is `path.split('/').pop()`. -/
def deleteRouteCid (path : String) : Option String :=
  let pre := "/api/watchlist/".data
  if path.data.take pre.length = pre then
    let rest := path.data.drop pre.length
    if rest ≠ [] ∧ rest.all Char.isDigit then some (String.mk rest) else none
  else none

-- ---------- Budgeted fetcher ----------

/-- `SUBREQ_BUDGET_PER_TICK = 120`. -/
def SUBREQ_BUDGET_PER_TICK : Nat := 120

/-- Outcome of a data-plane fetch (already `.catch(()=>null)`-wrapped by
`trackedFetch`, so the oracle itself is the `Option`). -/
structure FetchRes where
  ok : Bool
  status : Int
deriving DecidableEq, Repr

/-- Source `trackedFetch`: refuse with `null` at budget, else count and fetch.
Returns (result, new `subreqCount`, number of fetches performed). -/
def trackedFetch (cnt : Nat) (outcome : Option FetchRes) :
    Option FetchRes × Nat × Nat :=
  if SUBREQ_BUDGET_PER_TICK ≤ cnt then (none, cnt, 0)
  else (outcome, cnt + 1, 1)

/-- Classified result of `ghGet` (after `ghFetch`'s internal retries). -/
structure GhGetRes where
  ok : Bool
  status : Int
  sha : Option String
  json : Doc

/-- Classified result of `ghPut` (after `ghFetch`'s internal retries). -/
structure GhPutRes where
  ok : Bool
  status : Int
  sha : Option String
  text : String

/-- Source `ghGet`: `if (subreqCount >= SUBREQ_BUDGET_PER_TICK) throw new
Error("subrequest budget"); subreqCount++; ...`.  Returns (result-or-thrown,
new `subreqCount`, number of fetches performed). -/
def ghGetM (cnt : Nat) (w : GhGetRes) : Except String GhGetRes × Nat × Nat :=
  if SUBREQ_BUDGET_PER_TICK ≤ cnt then (Except.error "subrequest budget", cnt, 0)
  else (Except.ok w, cnt + 1, 1)

/-- Source `ghPut`, same budget pre-flight as `ghGet`. -/
def ghPutM (cnt : Nat) (w : GhPutRes) : Except String GhPutRes × Nat × Nat :=
  if SUBREQ_BUDGET_PER_TICK ≤ cnt then (Except.error "subrequest budget", cnt, 0)
  else (Except.ok w, cnt + 1, 1)

-- ---------- Store flush ----------

/-- The module-level store state: `GH_STORE`, `GH_STORE_SHA`, `GH_STORE_DIRTY`. -/
structure StoreSt where
  doc : Doc
  sha : Option String
  dirty : Bool

/-- Oracle for the outbound calls a single `storeFlush` can make. -/
structure FlushWorld where
  put1 : GhPutRes
  get409 : GhGetRes
  put2 : GhPutRes

/-- Result of `storeFlush`: final globals, final `subreqCount`, the PUTs
actually performed (document and SHA precondition each was sent with), and
the thrown error if any. -/
structure FlushOut where
  st : StoreSt
  cnt : Nat
  puts : List (Doc × Option String)
  err : Option String

/-- Source `storeFlush`: no-op unless dirty; PUT with the last-observed SHA;
on `!ok && status === 409` re-fetch, shallow-merge `{...remote, ...local}`,
adopt the remote SHA and retry the PUT once; finally `if (!r.ok) throw`,
else record the new SHA and clear the dirty flag.  (The thrown message's
`text.slice(0,200)` suffix is elided.) -/
def storeFlush (st : StoreSt) (w : FlushWorld) (cnt : Nat) : FlushOut :=
  if ¬ st.dirty then ⟨st, cnt, [], none⟩
  else
    match ghPutM cnt w.put1 with
    | (Except.error e, cnt1, _) => ⟨st, cnt1, [], some e⟩
    | (Except.ok r, cnt1, _) =>
      let puts1 := [(st.doc, st.sha)]
      if ¬ r.ok ∧ r.status = 409 then
        match ghGetM cnt1 w.get409 with
        | (Except.error e, cnt2, _) => ⟨st, cnt2, puts1, some e⟩
        | (Except.ok remote, cnt2, _) =>
          if remote.ok then
            let doc2 := mergeUnder remote.json st.doc
            let st2 : StoreSt := ⟨doc2, remote.sha, st.dirty⟩
            match ghPutM cnt2 w.put2 with
            | (Except.error e, cnt3, _) => ⟨st2, cnt3, puts1, some e⟩
            | (Except.ok r2, cnt3, _) =>
              let puts2 := puts1 ++ [(doc2, remote.sha)]
              if ¬ r2.ok then
                ⟨st2, cnt3, puts2,
                  some ("GitHub PUT failed " ++ toString r2.status ++ ": " ++ r2.text)⟩
              else ⟨⟨doc2, (r2.sha).orElse (fun _ => remote.sha), false⟩, cnt3, puts2, none⟩
          else
            ⟨st, cnt2, puts1,
              some ("GitHub PUT failed " ++ toString r.status ++ ": " ++ r.text)⟩
      else if ¬ r.ok then
        ⟨st, cnt1, puts1,
          some ("GitHub PUT failed " ++ toString r.status ++ ": " ++ r.text)⟩
      else ⟨⟨st.doc, (r.sha).orElse (fun _ => st.sha), false⟩, cnt1, puts1, none⟩

-- ---------- TTL cache read ----------

/-- Source `cacheGet`: null on absent or falsy entry; `if (!maxAgeSec) return
j` (absent or `0` max-age skips the freshness check); `if (!t) return null`
(`t` is the numeric `cached_at` or null, and `0` is falsy); stale when
`ts() - t > maxAgeSec`. -/
def cacheGet (doc : Doc) (key : String) (maxAgeSec : Option Int) (now : Int) :
    Option Val :=
  match lookupD doc key with
  | none => none
  | some j =>
    if ¬ truthy j then none
    else
      match maxAgeSec with
      | none => some j
      | some m =>
        if m = 0 then some j
        else
          match getNumField j "cached_at" with
          | none => none
          | some tv =>
            if tv = 0 then none
            else if m < now - tv then none
            else some j

-- ---------- Store cleanup ----------

/-- `STORE_CLEANUP_INTERVAL` (6 h, in seconds). -/
def STORE_CLEANUP_INTERVAL : Int := 6 * 60 * 60

/-- `STORE_CLEANUP_KEY`. -/
def STORE_CLEANUP_KEY : String := "_last_cleanup"

/-- `TTL.RATING_24H` (also `DIVISION_24H`, `AUDIT_24H`). -/
def TTL_RATING_24H : Int := 24 * 60 * 60

/-- `TTL.MEMBER_7D`. -/
def TTL_MEMBER_7D : Int := 7 * 24 * 60 * 60

/-- `Math.max(COOLDOWN.online, COOLDOWN.offline, COOLDOWN.flag)`:
15 min, 15 min, 24 h. -/
def COOLDOWN_MAX : Int := max (15 * 60) (max (15 * 60) (24 * 60 * 60))

/-- `key.startsWith(p)`. -/
def keyStarts (k p : String) : Bool := k.data.take p.data.length == p.data

/-- The `ttlMap` of `maybeCleanupStore`, in source order. -/
def ttlMap : List (String × Int) :=
  [("rating:", TTL_RATING_24H), ("division:", TTL_RATING_24H),
   ("member:", TTL_MEMBER_7D), ("membermeta:", TTL_RATING_24H),
   ("audit:visiting:", TTL_RATING_24H), ("audit:local:", TTL_RATING_24H),
   ("cooldown:", COOLDOWN_MAX)]

/-- First matching TTL by key start, default `TTL.RATING_24H` — the
`for (const [p, ttl] of Object.entries(ttlMap)) ... break` loop. -/
def ttlFor (key : String) : Int :=
  match ttlMap.find? (fun e => keyStarts key e.1) with
  | some e => e.2
  | none => TTL_RATING_24H

/-- `typeof entry.expiresAt === 'number' && entry.expiresAt < now`. -/
def expiredAt (now : Int) (v : Val) : Bool :=
  match getNumField v "expiresAt" with
  | some e => e < now
  | none => false

/-- Whether the sweep loop pushes `key` onto `keysToDelete`: skip the
cleanup marker and non-objects (`!entry || typeof entry !== 'object'`);
delete on `now - cached_at > 2 × TTL` or on an expired `expiresAt`. -/
def shouldDelete (now : Int) (key : String) (v : Val) : Bool :=
  if key = STORE_CLEANUP_KEY then false
  else if ¬ (truthy v ∧ isObjType v) then false
  else
    match getNumField v "cached_at" with
    | some t => if ttlFor key * 2 < now - t then true else expiredAt now v
    | none => expiredAt now v

/-- Is the sweep due?  `now - storeGet('_last_cleanup', 0) < INTERVAL`
returns early.  The stored value is only ever written as a number; for
non-numeric shapes the JS subtraction coerces (`null → 0`, `true → 1`) or
gives `NaN`, whose `<` comparison is false so the sweep proceeds. -/
def cleanupDue (now : Int) (d : Doc) : Bool :=
  match lookupD d STORE_CLEANUP_KEY with
  | some (Val.num n) => STORE_CLEANUP_INTERVAL ≤ now - n
  | some Val.null => STORE_CLEANUP_INTERVAL ≤ now
  | some (Val.bool b) => STORE_CLEANUP_INTERVAL ≤ now - (if b then 1 else 0)
  | some _ => true
  | none => STORE_CLEANUP_INTERVAL ≤ now

/-- The body of the sweep: collect `keysToDelete`, `storeDel` each, then
`storeSet('_last_cleanup', now)`. -/
def cleanupSweep (now : Int) (d : Doc) : Doc :=
  let keysToDelete := (d.filter (fun kv => shouldDelete now kv.1 kv.2)).map Prod.fst
  let d2 := d.filter (fun kv => !(keysToDelete.contains kv.1))
  setD d2 STORE_CLEANUP_KEY (Val.num now)

/-- Source `maybeCleanupStore`. -/
def maybeCleanupStore (now : Int) (d : Doc) : Doc :=
  if cleanupDue now d then cleanupSweep now d else d

-- ---------- Quarterly trigger ----------

/-- Source `quarterKeyForPrev` on UTC year and 0-based month. -/
def quarterKeyForPrev (year month : Nat) : String :=
  let q := month / 3 + 1
  if q - 1 < 1 then s!"{year - 1}Q4" else s!"{year}Q{q - 1}"

/-- Source `maybeStartQuarterlyVisiting`, as a function of the UTC clock
fields (`getUTCMonth` is 0-based, `getUTCDate` 1-based, `getUTCHours`), the
epoch-second clock `ts()` and the store document.  Note the function body:
after the quarter-start and `quarter:auto:<key>` checks, the only effect is
`kvPutJSON(env, doneKey, { done: true, at: ts() })` — the `// Queue quarterly
audit` comment has no job-constructing code under it. -/
def maybeStartQuarterlyVisiting (year month day hour : Nat) (nowTs : Int)
    (d : Doc) : Doc :=
  let isQuarterStart :=
    (month = 0 ∨ month = 3 ∨ month = 6 ∨ month = 9) ∧ day = 1 ∧ hour = 0
  if ¬ isQuarterStart then d
  else
    let doneKey := "quarter:auto:" ++ quarterKeyForPrev year month
    let done := (lookupD d doneKey).getD Val.null
    if truthy done then d
    else setD d doneKey (Val.obj [("done", Val.bool true), ("at", Val.num nowTs)])

-- ---------- Presence tracker ----------

/-- A live-feed entry as built by `getOnlineMap`: always carries these four
fields, hence is a non-empty object (`Object.keys(info).length > 0`). -/
structure PInfo where
  callsign : String
  frequency : Option String
  pname : Option String
  last_seen : Int
deriving DecidableEq, Repr

/-- A persisted `online_state` entry. -/
structure PEntry where
  online : Bool
  last_change : Int
  last_info : Option PInfo
deriving DecidableEq, Repr

/-- `!!prev.online` where `prev = state[cid] || {}`. -/
def wasOnlineAt (state : List (String × PEntry)) (cid : String) : Bool :=
  match lookupA state cid with
  | some e => e.online
  | none => false

/-- `prev.last_info || {}` (`none` models the `{}` default). -/
def prevInfoAt (state : List (String × PEntry)) (cid : String) : Option PInfo :=
  (lookupA state cid).bind (fun e => e.last_info)

/-- One iteration of the `for (const cid of all)` loop in `runPresence`:
`state[cid]` is upserted on a transition and `changed` set; otherwise both
are left alone.  `nowOnline` is membership in the feed map, since every
`getOnlineMap` value is a non-empty object. -/
def presenceStep (p : List (String × PInfo)) (now : Int)
    (acc : List (String × PEntry) × Bool) (cid : String) :
    List (String × PEntry) × Bool :=
  let wasOnline := wasOnlineAt acc.1 cid
  match lookupA p cid with
  | some info =>
      if ¬ wasOnline then (setA acc.1 cid ⟨true, now, some info⟩, true)
      else acc
  | none =>
      if wasOnline then (setA acc.1 cid ⟨false, now, prevInfoAt acc.1 cid⟩, true)
      else acc

/-- Source `runPresence` without the store plumbing: iterate the union
`new Set([...keys(state), ...keys(presence)])` of CIDs; returns the final
state object and the `changed` flag that gates `kvPutJSON(KV.STATE, state)`. -/
def runPresence (state : List (String × PEntry)) (p : List (String × PInfo))
    (now : Int) : List (String × PEntry) × Bool :=
  let keys := dedupFirst [] (state.map Prod.fst ++ p.map Prod.fst)
  keys.foldl (presenceStep p now) (state, false)

-- ---------- API layer ----------

/-- A JS `Error` as observed by `handleAPI`'s catch. -/
structure JsError where
  message : String
deriving DecidableEq, Repr

/-- An API response: HTTP status plus JSON body. -/
structure ApiResp where
  status : Nat
  body : Val

/-- `jsonResponse({ error: msg }, status)`. -/
def jsonError (msg : String) (status : Nat) : ApiResp :=
  ⟨status, Val.obj [("error", Val.str msg)]⟩

/-- Incoming request, as far as routing is concerned. -/
structure ApiRequest where
  path : String
  method : String

/-- Outcomes of the individual handlers (each may throw). -/
structure ApiOracles where
  getWatchlistR : Except JsError ApiResp
  addToWatchlistR : Except JsError ApiResp
  removeFromWatchlistR : String → Except JsError ApiResp
  getAuditVisitingR : Except JsError ApiResp
  getAuditLocalR : Except JsError ApiResp
  getPresenceR : Except JsError ApiResp
  getStatsR : Except JsError ApiResp

/-- The route dispatch inside `handleAPI`'s try block, in source order. -/
def dispatchAPI (req : ApiRequest) (o : ApiOracles) : Except JsError ApiResp :=
  if req.path = "/api/watchlist" ∧ req.method = "GET" then o.getWatchlistR
  else if req.path = "/api/watchlist" ∧ req.method = "POST" then o.addToWatchlistR
  else if (deleteRouteCid req.path).isSome ∧ req.method = "DELETE" then
    o.removeFromWatchlistR ((deleteRouteCid req.path).getD "")
  else if req.path = "/api/audit/visiting" ∧ req.method = "GET" then o.getAuditVisitingR
  else if req.path = "/api/audit/local" ∧ req.method = "GET" then o.getAuditLocalR
  else if req.path = "/api/presence" ∧ req.method = "GET" then o.getPresenceR
  else if req.path = "/api/stats" ∧ req.method = "GET" then o.getStatsR
  else Except.ok (jsonError "Not Found" 404)

/-- Source `handleAPI`: the try/catch wrapper.  The catch returns
`jsonResponse({ error: error.message || 'Internal Server Error' }, 500)`. -/
def handleAPI (req : ApiRequest) (o : ApiOracles) : ApiResp :=
  match dispatchAPI req o with
  | Except.ok r => r
  | Except.error e =>
      jsonError (if e.message = "" then "Internal Server Error" else e.message) 500

/-- The invariant actually maintained by the watchlist writers: strictly
ascending numeric values, and every element the canonical decimal string of
a value below 10^10. -/
def WlInv (l : List String) : Prop :=
  List.Pairwise (fun a b => natOfDigits a < natOfDigits b) l ∧
  ∀ e ∈ l, ∃ n : Nat, n < 10 ^ 10 ∧ e = jsNumToString n

/-- Watchlist contents reachable through the two API writers, starting from
the absent key (`kvGetJSON(env, KV.WATCHLIST, [])` default). -/
inductive WlReachable : List String → Prop where
  | init : WlReachable []
  | add : ∀ (l : List String) (bodyCid : Option String) (valid : Bool),
      WlReachable l → WlReachable (addToWatchlist bodyCid valid l).list
  | remove : ∀ (l : List String) (cid : String),
      WlReachable l → WlReachable (removeFromWatchlist cid l).list

/-- Did the online status of `cid` change between feed and state?  This is
exactly the condition under which the `runPresence` loop writes `cid`. -/
def statusChanged (state : List (String × PEntry)) (p : List (String × PInfo))
    (cid : String) : Bool :=
  (lookupA p cid).isSome != wasOnlineAt state cid

/-- The entry `runPresence` leaves at `cid`. -/
def newEntryAt (state : List (String × PEntry)) (p : List (String × PInfo))
    (now : Int) (cid : String) : Option PEntry :=
  match lookupA p cid, wasOnlineAt state cid with
  | some info, false => some ⟨true, now, some info⟩
  | none, true => some ⟨false, now, prevInfoAt state cid⟩
  | _, _ => lookupA state cid

-- ==================== Lemmas: association lists ====================

theorem lookupA_setA_self {α : Type} (d : List (String × α)) (k : String) (v : α) :
    lookupA (setA d k v) k = some v := by
  induction d with
  | nil => simp [setA, lookupA]
  | cons hd tl ih =>
      obtain ⟨k0, v0⟩ := hd
      by_cases h0 : k0 = k
      · simp [setA, lookupA, h0]
      · simp [setA, lookupA, h0, ih]

theorem lookupA_setA_ne {α : Type} (d : List (String × α)) (k k' : String) (v : α)
    (h : k' ≠ k) : lookupA (setA d k v) k' = lookupA d k' := by
  have hne : ¬ k = k' := fun hh => h hh.symm
  induction d with
  | nil => simp [setA, lookupA, hne]
  | cons hd tl ih =>
      obtain ⟨k0, v0⟩ := hd
      by_cases h0 : k0 = k
      · subst h0
        simp [setA, lookupA, hne]
      · simp [setA, lookupA, h0, ih]

theorem lookupA_mem {α : Type} {d : List (String × α)} {k : String} {v : α}
    (h : lookupA d k = some v) : (k, v) ∈ d ∧ k ∈ d.map Prod.fst := by
  induction d with
  | nil => simp [lookupA] at h
  | cons hd tl ih =>
      obtain ⟨k0, v0⟩ := hd
      by_cases h0 : k0 = k
      · subst h0
        simp [lookupA] at h
        subst h
        simp
      · simp only [lookupA, if_neg h0] at h
        rcases ih h with ⟨h1, h2⟩
        exact ⟨List.mem_cons_of_mem _ h1, by simp [h2]⟩

theorem lookupA_eq_none {α : Type} {d : List (String × α)} {k : String}
    (h : k ∉ d.map Prod.fst) : lookupA d k = none := by
  induction d with
  | nil => rfl
  | cons hd tl ih =>
      obtain ⟨k0, v0⟩ := hd
      have h1 : ¬ k0 = k := by
        intro hh
        exact h (by simp [hh])
      have h2 : k ∉ tl.map Prod.fst := by
        intro hh
        exact h (by simp [hh])
      simp [lookupA, h1, ih h2]

theorem mem_of_nodupKeys {α : Type} {d : List (String × α)} {k : String} {v : α}
    (hnd : (d.map Prod.fst).Nodup) (h : (k, v) ∈ d) : lookupA d k = some v := by
  induction d with
  | nil => simp at h
  | cons hd tl ih =>
      obtain ⟨k0, v0⟩ := hd
      rw [List.map_cons] at hnd
      rcases List.mem_cons.mp h with h1 | h1
      · have hk : k = k0 := congrArg Prod.fst h1
        have hv : v = v0 := congrArg Prod.snd h1
        subst hk
        subst hv
        simp [lookupA]
      · have hkmem : k ∈ tl.map Prod.fst := List.mem_map_of_mem Prod.fst h1
        have hk : ¬ k0 = k := by
          intro hh
          subst hh
          exact (List.nodup_cons.mp hnd).1 hkmem
        simp only [lookupA, if_neg hk]
        exact ih (List.nodup_cons.mp hnd).2 h1

theorem lookupA_append {α : Type} (xs ys : List (String × α)) (k : String) :
    lookupA (xs ++ ys) k = (lookupA xs k).orElse (fun _ => lookupA ys k) := by
  induction xs with
  | nil => simp [lookupA]
  | cons hd tl ih =>
      obtain ⟨k0, v0⟩ := hd
      by_cases h0 : k0 = k
      · simp [lookupA, h0]
      · simp [lookupA, h0, ih]

theorem lookupA_filter_isNone (r l : Doc) (k : String) :
    lookupA (l.filter (fun kv => (lookupD r kv.1).isNone)) k =
      if (lookupD r k).isNone then lookupA l k else none := by
  induction l with
  | nil => simp [lookupA]
  | cons hd tl ih =>
      obtain ⟨k0, v0⟩ := hd
      by_cases h0 : k0 = k
      · subst h0
        by_cases hp : (lookupD r k0).isNone
        · simp [List.filter_cons, hp, lookupA]
        · simp [List.filter_cons, hp, lookupA, ih]
      · by_cases hp : (lookupD r k0).isNone
        · simp [List.filter_cons, hp, lookupA, h0, ih]
        · simp [List.filter_cons, hp, lookupA, h0, ih]

theorem lookupA_merge_map (r l : Doc) (k : String) :
    lookupA (r.map (fun kv => (kv.1, (lookupD l kv.1).getD kv.2))) k =
      (lookupA r k).map (fun v => (lookupD l k).getD v) := by
  induction r with
  | nil => simp [lookupA]
  | cons hd tl ih =>
      obtain ⟨k0, v0⟩ := hd
      by_cases h0 : k0 = k
      · subst h0
        simp [lookupA]
      · simp [lookupA, h0, ih]

theorem lookup_mergeUnder (r l : Doc) (k : String) :
    lookupD (mergeUnder r l) k =
      (lookupD l k).orElse (fun _ => lookupD r k) := by
  show lookupA (mergeUnder r l) k = _
  rw [mergeUnder, lookupA_append, lookupA_merge_map, lookupA_filter_isNone]
  cases hr : lookupA r k with
  | none =>
      cases hl : lookupA l k <;> simp [lookupD, hr, hl, Option.orElse]
  | some v =>
      cases hl : lookupA l k <;> simp [lookupD, hr, hl, Option.orElse]

-- ==================== Lemmas: decimal digit strings ====================

theorem digitChar_isDigit (d : Nat) : (digitChar d).isDigit = true := by
  unfold digitChar
  split <;> decide

theorem charVal_digitChar {d : Nat} (h : d < 10) : charVal (digitChar d) = d := by
  interval_cases d <;> decide

theorem digitChar_ne_zero {d : Nat} (h : d < 10) (h0 : d ≠ 0) : digitChar d ≠ '0' := by
  interval_cases d
  · exact absurd rfl h0
  all_goals decide

theorem charVal_le_of_isDigit {c : Char} (h : c.isDigit = true) : charVal c ≤ 9 := by
  simp [Char.isDigit] at h
  obtain ⟨h1, h2⟩ := h
  have h2' : c.toNat ≤ 57 := h2
  unfold charVal
  omega

theorem natDigitsAux_ne_nil {fuel n : Nat} (h : n < fuel) : natDigitsAux fuel n ≠ [] := by
  cases fuel with
  | zero => omega
  | succ f =>
      by_cases h10 : n < 10 <;> simp [natDigitsAux, h10]

theorem natDigitsAux_digits {fuel n : Nat} (h : n < fuel) :
    ∀ c ∈ natDigitsAux fuel n, c.isDigit = true := by
  induction fuel generalizing n with
  | zero => omega
  | succ f ih =>
      intro c hc
      by_cases h10 : n < 10
      · simp [natDigitsAux, h10] at hc
        subst hc
        exact digitChar_isDigit n
      · simp [natDigitsAux, h10] at hc
        rcases hc with hc | hc
        · exact ih (by omega) c hc
        · subst hc
          exact digitChar_isDigit _

theorem natOfDigitList_append_digit (cs : List Char) (c : Char) :
    natOfDigitList (cs ++ [c]) = natOfDigitList cs * 10 + charVal c := by
  simp [natOfDigitList, List.foldl_append]

theorem natOfDigitList_natDigitsAux {fuel n : Nat} (h : n < fuel) :
    natOfDigitList (natDigitsAux fuel n) = n := by
  induction fuel generalizing n with
  | zero => omega
  | succ f ih =>
      by_cases h10 : n < 10
      · simp [natDigitsAux, h10, natOfDigitList, charVal_digitChar h10]
      · have hdiv : n / 10 < f := by omega
        have hmod : n % 10 < 10 := Nat.mod_lt n (by omega)
        simp [natDigitsAux, h10, natOfDigitList_append_digit, ih hdiv,
          charVal_digitChar hmod]
        omega

theorem natDigitsAux_headNe {fuel n : Nat} (h : n < fuel) (hn : n ≠ 0) :
    (natDigitsAux fuel n).head? ≠ some '0' := by
  induction fuel generalizing n with
  | zero => omega
  | succ f ih =>
      by_cases h10 : n < 10
      · simp [natDigitsAux, h10]
        exact digitChar_ne_zero h10 hn
      · have hdiv : n / 10 < f := by omega
        have hd := ih hdiv (show n / 10 ≠ 0 by omega)
        cases hxs : natDigitsAux f (n / 10) with
        | nil => exact absurd hxs (natDigitsAux_ne_nil hdiv)
        | cons a as =>
            rw [hxs] at hd
            simp [natDigitsAux, h10, hxs]
            simpa using hd

theorem natDigitsAux_length {fuel n k : Nat} (h : n < fuel) (hk : 1 ≤ k)
    (hn : n < 10 ^ k) : (natDigitsAux fuel n).length ≤ k := by
  induction fuel generalizing n k with
  | zero => omega
  | succ f ih =>
      by_cases h10 : n < 10
      · simpa [natDigitsAux, h10] using hk
      · have hk2 : 2 ≤ k := by
          rcases Nat.lt_or_ge k 2 with hlt | hge
          · interval_cases k
            · simp at hn
              omega
          · exact hge
        have hpow : 10 ^ k = 10 ^ (k - 1) * 10 := by
          rw [← pow_succ]
          congr 1
          omega
        have hdiv10 : n / 10 < 10 ^ (k - 1) := by
          rw [hpow] at hn
          omega
        have hlen := ih (show n / 10 < f by omega) (show 1 ≤ k - 1 by omega) hdiv10
        simp [natDigitsAux, h10, List.length_append]
        omega

theorem jsNumToString_data (n : Nat) : (jsNumToString n).data = natDigits n := rfl

theorem natOfDigits_jsNumToString (n : Nat) : natOfDigits (jsNumToString n) = n :=
  natOfDigitList_natDigitsAux (Nat.lt_succ_self n)

theorem jsNumToString_inj {a b : Nat} (h : jsNumToString a = jsNumToString b) :
    a = b := by
  have := congrArg natOfDigits h
  rwa [natOfDigits_jsNumToString, natOfDigits_jsNumToString] at this

theorem jsNumToString_ne_nil (n : Nat) : (jsNumToString n).data ≠ [] :=
  natDigitsAux_ne_nil (Nat.lt_succ_self n)

theorem jsNumToString_digits (n : Nat) :
    ∀ c ∈ (jsNumToString n).data, c.isDigit = true :=
  natDigitsAux_digits (Nat.lt_succ_self n)

theorem jsNumToString_headNe {n : Nat} (hn : n ≠ 0) :
    (jsNumToString n).data.head? ≠ some '0' :=
  natDigitsAux_headNe (Nat.lt_succ_self n) hn

theorem jsNumToString_zero : jsNumToString 0 = "0" := rfl

theorem jsNumToString_length {n k : Nat} (hk : 1 ≤ k) (h : n < 10 ^ k) :
    (jsNumToString n).data.length ≤ k :=
  natDigitsAux_length (Nat.lt_succ_self n) hk h

theorem natOfDigitList_lt {cs : List Char} (h : ∀ c ∈ cs, c.isDigit = true) :
    natOfDigitList cs < 10 ^ cs.length := by
  suffices H : ∀ acc, List.foldl (fun acc c => acc * 10 + charVal c) acc cs <
      (acc + 1) * 10 ^ cs.length by
    simpa [natOfDigitList] using H 0
  induction cs with
  | nil =>
      intro acc
      simp
  | cons c cs ih =>
      intro acc
      have hc : charVal c ≤ 9 := charVal_le_of_isDigit (h c (by simp))
      have ihh := ih (fun c' hc' => h c' (by simp [hc'])) (acc * 10 + charVal c)
      have h1 : acc * 10 + charVal c + 1 ≤ (acc + 1) * 10 := by omega
      have h2 : (acc * 10 + charVal c + 1) * 10 ^ cs.length ≤
          ((acc + 1) * 10) * 10 ^ cs.length := Nat.mul_le_mul_right _ h1
      simp only [List.foldl_cons, List.length_cons]
      calc List.foldl (fun acc c => acc * 10 + charVal c) (acc * 10 + charVal c) cs <
        (acc * 10 + charVal c + 1) * 10 ^ cs.length := ihh
        _ ≤ ((acc + 1) * 10) * 10 ^ cs.length := h2
        _ = (acc + 1) * 10 ^ (cs.length + 1) := by ring

theorem canonicalCID_shape {s c : String} (h : canonicalCID s = some c) :
    ∃ n : Nat, n < 10 ^ 10 ∧ c = jsNumToString n := by
  unfold canonicalCID at h
  set d := stripNonDigits s with hd
  by_cases hlen : 3 ≤ d.length ∧ d.length ≤ 10
  · rw [if_pos hlen] at h
    refine ⟨natOfDigitList d, ?_, (Option.some.injEq _ _ ▸ h.symm :)⟩
    have hdig : ∀ ch ∈ d, ch.isDigit = true := by
      intro ch hch
      exact List.of_mem_filter hch
    calc natOfDigitList d < 10 ^ d.length := natOfDigitList_lt hdig
      _ ≤ 10 ^ 10 := Nat.pow_le_pow_right (by omega) hlen.2
  · rw [if_neg hlen] at h
    exact absurd h (by simp)

-- ==================== Lemmas: dedupFirst ====================

theorem mem_dedupFirst {x : String} : ∀ {seen xs : List String},
    (x ∈ dedupFirst seen xs ↔ (x ∈ xs ∧ x ∉ seen)) := by
  intro seen xs
  induction xs generalizing seen with
  | nil => simp [dedupFirst]
  | cons y ys ih =>
      by_cases hy : y ∈ seen <;> by_cases hxy : x = y
      · subst hxy
        simp [dedupFirst, hy, ih]
      · simp [dedupFirst, hy, hxy, ih]
      · subst hxy
        simp [dedupFirst, hy, ih]
      · simp [dedupFirst, hy, hxy, ih]

theorem nodup_dedupFirst : ∀ (seen xs : List String), (dedupFirst seen xs).Nodup := by
  intro seen xs
  induction xs generalizing seen with
  | nil => simp [dedupFirst]
  | cons y ys ih =>
      by_cases hy : y ∈ seen
      · rw [dedupFirst, if_pos hy]
        exact ih seen
      · rw [dedupFirst, if_neg hy]
        refine List.nodup_cons.mpr ⟨?_, ih (y :: seen)⟩
        intro hmem
        exact (mem_dedupFirst.mp hmem).2 (by simp)

-- ==================== C4: canonicalCID ====================

/-- C4: `canonicalCID` strips all non-digit characters; it returns null
exactly when the remaining digit string has fewer than 3 or more than 10
characters, and otherwise returns the decimal string of that digit string's
integer value (all digits, leading zeros stripped, at most 10 characters);
and `POST /api/watchlist` responds 400 exactly when canonicalisation of the
request's cid yields null. -/
theorem canonicalCID_spec (s : String) :
    (canonicalCID s = none ↔
      ((stripNonDigits s).length < 3 ∨ 10 < (stripNonDigits s).length)) ∧
    (∀ c, canonicalCID s = some c →
      c.data ≠ [] ∧ (∀ ch ∈ c.data, ch.isDigit = true) ∧
      natOfDigits c = natOfDigitList (stripNonDigits s) ∧
      (c = "0" ∨ c.data.head? ≠ some '0') ∧ c.data.length ≤ 10) ∧
    (∀ bodyCid valid list, (addToWatchlist bodyCid valid list).status = 400 ↔
      canonicalCID (bodyCid.getD "") = none) := by
  refine ⟨?_, ?_, ?_⟩
  · unfold canonicalCID
    by_cases hlen : 3 ≤ (stripNonDigits s).length ∧ (stripNonDigits s).length ≤ 10
    · simp only [if_pos hlen]
      simp
      omega
    · simp only [if_neg hlen]
      simp
      omega
  · intro c h
    obtain ⟨n, hn, hc⟩ := canonicalCID_shape h
    have hval : c = jsNumToString (natOfDigitList (stripNonDigits s)) := by
      unfold canonicalCID at h
      by_cases hlen : 3 ≤ (stripNonDigits s).length ∧ (stripNonDigits s).length ≤ 10
      · rw [if_pos hlen] at h
        exact (Option.some.injEq _ _ ▸ h.symm :)
      · rw [if_neg hlen] at h
        exact absurd h (by simp)
    subst hc
    refine ⟨jsNumToString_ne_nil n, jsNumToString_digits n, ?_, ?_, ?_⟩
    · rw [hval, natOfDigits_jsNumToString]
    · by_cases hz : n = 0
      · subst hz
        exact Or.inl jsNumToString_zero
      · exact Or.inr (jsNumToString_headNe hz)
    · exact jsNumToString_length (by omega) hn
  · intro bodyCid valid list
    unfold addToWatchlist
    cases hc : canonicalCID (bodyCid.getD "") with
    | none => simp
    | some c =>
        by_cases hv : valid
        · by_cases hmem : c ∈ dedupFirst [] list
          · simp [hv, hmem]
          · simp [hv, hmem]
        · simp [hv]

-- ==================== C5: watchlist write invariant ====================

theorem pairwise_lt_of_le_of_ne {l : List Nat} (h1 : List.Pairwise (· ≤ ·) l)
    (h2 : l.Nodup) : List.Pairwise (· < ·) l := by
  induction l with
  | nil => simp
  | cons a l ih =>
      rw [List.pairwise_cons] at h1 ⊢
      rw [List.nodup_cons] at h2
      refine ⟨fun b hb => lt_of_le_of_ne (h1.1 b hb) ?_, ih h1.2 h2.2⟩
      intro he
      exact h2.1 (he ▸ hb)

theorem wlInv_sorted_insert {l : List String} (hinv : WlInv l) {c : String}
    (hc : ∃ m : Nat, m < 10 ^ 10 ∧ c = jsNumToString m)
    (hmem : c ∉ dedupFirst [] l) :
    WlInv ((((dedupFirst [] l ++ [c]).map natOfDigits).insertionSort
      (· ≤ ·)).map jsNumToString) := by
  obtain ⟨m, hm, hcm⟩ := hc
  set base := dedupFirst [] l ++ [c] with hbase
  have hshape : ∀ e ∈ base, ∃ n : Nat, n < 10 ^ 10 ∧ e = jsNumToString n := by
    intro e he
    rcases List.mem_append.mp he with he | he
    · exact hinv.2 e (mem_dedupFirst.mp he).1
    · exact ⟨m, hm, (List.mem_singleton.mp he) ▸ hcm⟩
  have hnd : base.Nodup := by
    rw [hbase, List.nodup_append]
    refine ⟨nodup_dedupFirst [] l, List.nodup_singleton c, ?_⟩
    intro x hx hx1
    rw [List.mem_singleton] at hx1
    exact hmem (hx1 ▸ hx)
  have hvals : (base.map natOfDigits).Nodup := by
    refine List.Nodup.map_on ?_ hnd
    intro x hx y hy hxy
    obtain ⟨nx, _, hxs⟩ := hshape x hx
    obtain ⟨ny, _, hys⟩ := hshape y hy
    rw [hxs, hys, natOfDigits_jsNumToString, natOfDigits_jsNumToString] at hxy
    rw [hxs, hys, hxy]
  have hperm : List.Perm ((base.map natOfDigits).insertionSort (· ≤ ·))
      (base.map natOfDigits) :=
    List.perm_insertionSort _ _
  have hsortnd : ((base.map natOfDigits).insertionSort (· ≤ ·)).Nodup :=
    hperm.nodup_iff.mpr hvals
  have hsort : List.Pairwise (· ≤ ·) ((base.map natOfDigits).insertionSort (· ≤ ·)) :=
    List.sorted_insertionSort (· ≤ ·) (base.map natOfDigits)
  have hlt : List.Pairwise (· < ·) ((base.map natOfDigits).insertionSort (· ≤ ·)) :=
    pairwise_lt_of_le_of_ne hsort hsortnd
  constructor
  · refine (List.pairwise_map).mpr (hlt.imp ?_)
    intro a b hab
    rwa [natOfDigits_jsNumToString, natOfDigits_jsNumToString]
  · intro e he
    rw [List.mem_map] at he
    obtain ⟨v, hv, rfl⟩ := he
    have hvvs : v ∈ base.map natOfDigits := hperm.subset hv
    rw [List.mem_map] at hvvs
    obtain ⟨e0, he0, hval⟩ := hvvs
    obtain ⟨n, hn, hes⟩ := hshape e0 he0
    refine ⟨v, ?_, rfl⟩
    rw [← hval, hes, natOfDigits_jsNumToString]
    exact hn

theorem addToWatchlist_preserves {l : List String} (hinv : WlInv l)
    (bodyCid : Option String) (valid : Bool) :
    WlInv (addToWatchlist bodyCid valid l).list := by
  unfold addToWatchlist
  cases hc : canonicalCID (bodyCid.getD "") with
  | none => simpa using hinv
  | some c =>
      by_cases hv : valid = true
      · by_cases hmem : c ∈ dedupFirst [] l
        · simpa [hv, hmem] using hinv
        · simpa [hv, hmem] using
            wlInv_sorted_insert hinv (canonicalCID_shape hc) hmem
      · simpa [hv] using hinv

theorem removeFromWatchlist_preserves {l : List String} (hinv : WlInv l)
    (cid : String) : WlInv (removeFromWatchlist cid l).list := by
  unfold removeFromWatchlist
  dsimp only
  split
  · exact hinv
  · refine ⟨hinv.1.sublist (List.filter_sublist l), ?_⟩
    intro e he
    exact hinv.2 e (List.mem_of_mem_filter he)

theorem wlInv_of_reachable {l : List String} (h : WlReachable l) : WlInv l := by
  induction h with
  | init => exact ⟨List.Pairwise.nil, by simp⟩
  | add l bodyCid valid _ ih => exact addToWatchlist_preserves ih bodyCid valid
  | remove l cid _ ih => exact removeFromWatchlist_preserves ih cid

/-- C5 counterexample: `POST /api/watchlist` with body cid `"000"` (three
digits, accepted) canonicalises to `"0"`, so the stored watchlist gains an
element of length 1 — not "3 to 10 characters" as claimed. -/
theorem addToWatchlist_short_element :
    addToWatchlist (some "000") true [] = ⟨200, ["0"]⟩ ∧
    ¬ (3 ≤ ("0" : String).length) := ⟨by decide, by decide⟩

/-- C5 (amended): after every watchlist write the stored watchlist is
duplicate-free, in strictly ascending numeric order, and every element is a
non-empty all-digit string of at most 10 characters with no leading zeros
(elements of length 1 or 2 can arise from inputs whose digits start with
zeros, e.g. `"000" → "0"`). -/
theorem watchlist_write_invariant (l : List String) (h : WlReachable l) :
    l.Nodup ∧
    List.Pairwise (fun a b => natOfDigits a < natOfDigits b) l ∧
    ∀ e ∈ l, e.data ≠ [] ∧ (∀ ch ∈ e.data, ch.isDigit = true) ∧
      (e = "0" ∨ e.data.head? ≠ some '0') ∧ e.data.length ≤ 10 := by
  obtain ⟨hpair, hshape⟩ := wlInv_of_reachable h
  refine ⟨?_, hpair, ?_⟩
  · refine List.Pairwise.imp ?_ hpair
    intro a b hab he
    rw [he] at hab
    exact lt_irrefl _ hab
  · intro e he
    obtain ⟨n, hn, rfl⟩ := hshape e he
    refine ⟨jsNumToString_ne_nil n, jsNumToString_digits n, ?_,
      jsNumToString_length (by omega) hn⟩
    by_cases hz : n = 0
    · subst hz
      exact Or.inl jsNumToString_zero
    · exact Or.inr (jsNumToString_headNe hz)

/-- Witness for `watchlist_write_invariant` at the reachable watchlist
`["123"]`, produced by one successful add. -/
theorem watchlist_write_invariant_witness :
    WlReachable ["123"] ∧
    (["123"] : List String).Nodup ∧
    List.Pairwise (fun a b => natOfDigits a < natOfDigits b) ["123"] ∧
    ∀ e ∈ (["123"] : List String), e.data ≠ [] ∧
      (∀ ch ∈ e.data, ch.isDigit = true) ∧
      (e = "0" ∨ e.data.head? ≠ some '0') ∧ e.data.length ≤ 10 := by
  have hr : WlReachable ["123"] := by
    have h1 := WlReachable.add [] (some "123") true WlReachable.init
    have he : (addToWatchlist (some "123") true []).list = ["123"] := by decide
    rwa [he] at h1
  exact ⟨hr, watchlist_write_invariant ["123"] hr⟩

/-- Witness for `canonicalCID_spec` at the inputs `"0012a345"` (valid, with
junk and leading zeros) and `"abc"` (rejected with 400). -/
theorem canonicalCID_spec_witness :
    canonicalCID "0012a345" = some "12345" ∧
    natOfDigits "12345" = natOfDigitList (stripNonDigits "0012a345") ∧
    ("12345" : String).data.length ≤ 10 ∧
    (addToWatchlist (some "abc") true []).status = 400 := by
  have h := canonicalCID_spec "0012a345"
  have h2 := h.2.1 "12345" (by decide)
  exact ⟨by decide, h2.2.2.1, h2.2.2.2.2,
    (canonicalCID_spec "abc").2.2 (some "abc") true [] |>.mpr (by decide)⟩

-- ==================== C9: DELETE with leading zeros ====================

theorem ne_of_data_head {s t : String} (h : s.data.head? ≠ t.data.head?) :
    s ≠ t :=
  fun he => h (he ▸ rfl)

/-- C9: the DELETE route only matches all-digit paths, and
`removeFromWatchlist` compares the path's cid to stored entries by raw
string equality without canonicalisation; hence for a stored canonical CID
`c`, a DELETE whose path carries the same digits under extra leading zeros
returns 404 and leaves the watchlist unchanged. -/
theorem deleteRoute_leading_zeros (l : List String) (c z : String)
    (hmem : c ∈ l)
    (hcanon : ∀ e ∈ l, ∃ n : Nat, e = jsNumToString n)
    (hzne : z.data ≠ []) (hz0 : ∀ ch ∈ z.data, ch = '0') :
    (∀ p s, deleteRouteCid p = some s →
      p.data = "/api/watchlist/".data ++ s.data ∧ s.data ≠ [] ∧
        ∀ ch ∈ s.data, ch.isDigit = true) ∧
    deleteRouteCid ("/api/watchlist/" ++ (z ++ c)) = some (z ++ c) ∧
    removeFromWatchlist (z ++ c) l = ⟨404, l⟩ := by
  obtain ⟨nc, hnc⟩ := hcanon c hmem
  refine ⟨?_, ?_, ?_⟩
  · intro p s h
    unfold deleteRouteCid at h
    by_cases h1 : p.data.take ("/api/watchlist/".data.length) = "/api/watchlist/".data
    · rw [if_pos h1] at h
      by_cases h2 : p.data.drop ("/api/watchlist/".data.length) ≠ [] ∧
          (p.data.drop ("/api/watchlist/".data.length)).all Char.isDigit
      · rw [if_pos h2] at h
        have hs : s = String.mk (p.data.drop ("/api/watchlist/".data.length)) :=
          (Option.some.injEq _ _ ▸ h.symm :)
        subst hs
        refine ⟨?_, h2.1, ?_⟩
        · have hsplit :=
            (List.take_append_drop ("/api/watchlist/".data.length) p.data).symm
          rw [h1] at hsplit
          exact hsplit
        · intro ch hch
          exact List.all_eq_true.mp h2.2 ch hch
      · rw [if_neg h2] at h
        exact absurd h (by simp)
    · rw [if_neg h1] at h
      exact absurd h (by simp)
  · have hdata : ("/api/watchlist/" ++ (z ++ c)).data =
        "/api/watchlist/".data ++ (z.data ++ c.data) := rfl
    unfold deleteRouteCid
    dsimp only
    rw [hdata, List.take_left' rfl, if_pos rfl, List.drop_left' rfl]
    have hne : z.data ++ c.data ≠ [] := by
      intro hnil
      exact hzne (List.append_eq_nil.mp hnil).1
    have hdig : (z.data ++ c.data).all Char.isDigit = true := by
      rw [List.all_eq_true]
      intro ch hch
      rcases List.mem_append.mp hch with hch | hch
      · rw [hz0 ch hch]
        decide
      · exact (hnc ▸ jsNumToString_digits nc) ch (hnc ▸ hch)
    rw [if_pos ⟨hne, hdig⟩]
    rfl
  · have hnotmem : (z ++ c) ∉ l := by
      intro hzc
      obtain ⟨n, hn⟩ := hcanon (z ++ c) hzc
      have hdata : (z ++ c).data = z.data ++ c.data := rfl
      obtain ⟨zh, zt, hzcons⟩ := List.exists_cons_of_ne_nil hzne
      have hhead : (z ++ c).data.head? = some '0' := by
        rw [hdata, hzcons]
        simp [hz0 zh (by rw [hzcons]; simp)]
      by_cases hz' : n = 0
      · subst hz'
        have hc_ne : c.data ≠ [] := hnc ▸ jsNumToString_ne_nil nc
        have hdd : z.data ++ c.data = ['0'] := by
          have h3 := congrArg String.data hn
          rw [jsNumToString_zero] at h3
          exact h3
        rw [hzcons] at hdd
        simp only [List.cons_append] at hdd
        injection hdd with h4 h5
        exact hc_ne (List.append_eq_nil.mp h5).2
      · exact jsNumToString_headNe hz' (hn ▸ hhead)
    unfold removeFromWatchlist
    have hfil : l.filter (fun x => x ≠ (z ++ c)) = l := by
      rw [List.filter_eq_self]
      intro a ha
      simp only [ne_eq, decide_not, Bool.not_eq_eq_eq_not, Bool.not_true,
        decide_eq_false_iff_not]
      intro he
      exact hnotmem (he ▸ ha)
    rw [hfil]
    simp

/-- Witness for `deleteRoute_leading_zeros`: watchlist `["123"]`, stored CID
`"123"`, DELETE path `/api/watchlist/0123`. -/
theorem deleteRoute_leading_zeros_witness :
    deleteRouteCid "/api/watchlist/0123" = some "0123" ∧
    removeFromWatchlist "0123" ["123"] = ⟨404, ["123"]⟩ := by
  have h := deleteRoute_leading_zeros ["123"] "123" "0" (by decide)
    (fun e he => ⟨123, by rw [List.mem_singleton.mp he]; decide⟩)
    (by decide) (fun ch hch => by simpa using hch)
  exact ⟨h.2.1, h.2.2⟩

-- ==================== C3: subrequest budget ====================

/-- C3 counterexample: with the budget already exhausted, `ghGet` does not
return null to its caller — it throws `Error("subrequest budget")` (and
`ghPut` does the same); only `trackedFetch` returns null. -/
theorem ghGet_budget_throws :
    ghGetM 120 ⟨true, 200, none, []⟩ =
      (Except.error "subrequest budget", 120, 0) := rfl

/-- C3 (amended): when `subreqCount` has reached `SUBREQ_BUDGET_PER_TICK`,
none of the three outbound-call sites performs a fetch; `trackedFetch`
returns null to its caller, while `ghGet` and `ghPut` refuse by throwing
`Error("subrequest budget")`. -/
theorem budget_exhausted_spec (cnt : Nat) (h : SUBREQ_BUDGET_PER_TICK ≤ cnt)
    (f : Option FetchRes) (wg : GhGetRes) (wp : GhPutRes) :
    trackedFetch cnt f = (none, cnt, 0) ∧
    ghGetM cnt wg = (Except.error "subrequest budget", cnt, 0) ∧
    ghPutM cnt wp = (Except.error "subrequest budget", cnt, 0) := by
  refine ⟨?_, ?_, ?_⟩ <;> simp [trackedFetch, ghGetM, ghPutM, h]

/-- Witness for `budget_exhausted_spec` at `subreqCount = 120`. -/
theorem budget_exhausted_spec_witness :
    trackedFetch 120 (some ⟨true, 200⟩) = (none, 120, 0) ∧
    ghGetM 120 ⟨true, 200, none, []⟩ =
      (Except.error "subrequest budget", 120, 0) ∧
    ghPutM 120 ⟨true, 200, none, ""⟩ =
      (Except.error "subrequest budget", 120, 0) :=
  budget_exhausted_spec 120 (by decide) (some ⟨true, 200⟩)
    ⟨true, 200, none, []⟩ ⟨true, 200, none, ""⟩

-- ==================== C10: cacheGet ====================

/-- C10 counterexample: a falsy stored entry (here the number 0) is not
returned even with `maxAgeSec` absent — `if (!j) return null` fires before
the `!maxAgeSec` early return, contradicting "returns the entry
unconditionally whenever maxAgeSec is absent or 0". -/
theorem cacheGet_falsy_not_returned :
    cacheGet [("k", Val.num 0)] "k" none 100 = none ∧
    lookupD [("k", Val.num 0)] "k" = some (Val.num 0) := ⟨rfl, rfl⟩

/-- C10 (amended): for every truthy stored entry (all genuine cache entries
are objects, hence truthy) `cacheGet` returns the entry unchanged with no
freshness check whenever `maxAgeSec` is absent or 0; a falsy stored entry
yields null regardless; and whenever `maxAgeSec` is positive and the entry
lacks a numeric `cached_at` field, the result is null. -/
theorem cacheGet_spec (doc : Doc) (key : String) (now : Int) (v : Val)
    (ma : Option Int) (h : lookupD doc key = some v) :
    (truthy v = true → (ma = none ∨ ma = some 0) →
      cacheGet doc key ma now = some v) ∧
    (truthy v = false → cacheGet doc key ma now = none) ∧
    (∀ m : Int, ma = some m → 0 < m → getNumField v "cached_at" = none →
      cacheGet doc key ma now = none) := by
  unfold cacheGet
  rw [h]
  refine ⟨?_, ?_, ?_⟩
  · intro ht hma
    rcases hma with rfl | rfl <;> simp [ht]
  · intro hf
    simp [hf]
  · intro m hm hpos hfield
    subst hm
    by_cases ht : truthy v
    · simp [ht, hfield, show ¬ m = 0 by omega]
    · simp [ht]

/-- Witness for `cacheGet_spec`: an object entry with no `cached_at`, read
once with `maxAgeSec` absent (returned) and once with a positive
`maxAgeSec` (null). -/
theorem cacheGet_spec_witness :
    cacheGet [("member:123", Val.obj [("ok", Val.bool true)])] "member:123"
        none 100 = some (Val.obj [("ok", Val.bool true)]) ∧
    cacheGet [("member:123", Val.obj [("ok", Val.bool true)])] "member:123"
        (some 60) 100 = none :=
  ⟨(cacheGet_spec [("member:123", Val.obj [("ok", Val.bool true)])]
      "member:123" 100 (Val.obj [("ok", Val.bool true)]) none
      rfl).1 rfl (Or.inl rfl),
   (cacheGet_spec [("member:123", Val.obj [("ok", Val.bool true)])]
      "member:123" 100 (Val.obj [("ok", Val.bool true)])
      (some 60) rfl).2.2 60 rfl (by omega) rfl⟩

-- ==================== C7: API error envelope ====================

/-- C7 counterexample: an unexpected handler exception with message "boom"
is echoed verbatim in the 500 error envelope — the exception's detail is
included, not hidden behind a generic message. -/
theorem handleAPI_leaks_detail :
    handleAPI ⟨"/api/stats", "GET"⟩
      ⟨Except.ok (jsonError "x" 200), Except.ok (jsonError "x" 200),
       fun _ => Except.ok (jsonError "x" 200), Except.ok (jsonError "x" 200),
       Except.ok (jsonError "x" 200), Except.ok (jsonError "x" 200),
       Except.error ⟨"boom"⟩⟩ =
      ⟨500, Val.obj [("error", Val.str "boom")]⟩ ∧
    "boom" ≠ "Internal Server Error" := by
  refine ⟨rfl, by decide⟩

/-- C7 (amended): when the dispatched handler throws, `handleAPI` returns
HTTP 500 with the exception's own message in the `{error}` envelope,
falling back to the generic 'Internal Server Error' only when the message
is empty. -/
theorem handleAPI_error_envelope (req : ApiRequest) (o : ApiOracles)
    (e : JsError) (h : dispatchAPI req o = Except.error e) :
    handleAPI req o =
      ⟨500, Val.obj [("error",
        Val.str (if e.message = "" then "Internal Server Error"
                 else e.message))]⟩ := by
  unfold handleAPI
  rw [h]
  rfl

/-- Witness for `handleAPI_error_envelope` on a GET of `/api/presence`
whose handler throws `Error("nope")`. -/
theorem handleAPI_error_envelope_witness :
    handleAPI ⟨"/api/presence", "GET"⟩
      ⟨Except.ok (jsonError "x" 200), Except.ok (jsonError "x" 200),
       fun _ => Except.ok (jsonError "x" 200), Except.ok (jsonError "x" 200),
       Except.ok (jsonError "x" 200), Except.error ⟨"nope"⟩,
       Except.ok (jsonError "x" 200)⟩ =
      ⟨500, Val.obj [("error", Val.str "nope")]⟩ := by
  have h := handleAPI_error_envelope ⟨"/api/presence", "GET"⟩
    ⟨Except.ok (jsonError "x" 200), Except.ok (jsonError "x" 200),
     fun _ => Except.ok (jsonError "x" 200), Except.ok (jsonError "x" 200),
     Except.ok (jsonError "x" 200), Except.error ⟨"nope"⟩,
     Except.ok (jsonError "x" 200)⟩ ⟨"nope"⟩ rfl
  simpa using h

-- ==================== C1: quarterly trigger ====================

/-- C1 (code bug): at the quarter-start instant 2026-01-01T00:xxZ with the
previous-quarter marker absent and a non-empty watchlist, the tick writes
only the `quarter:auto:2025Q4` idempotency marker: `audit:job` stays absent
and `audit:partial:visiting` is untouched — and (last conjunct) no input
whatsoever makes `maybeStartQuarterlyVisiting` write `audit:job`, so no
visiting job is ever enqueued by the quarterly trigger. -/
theorem quarterly_writes_marker_but_no_job :
    (maybeStartQuarterlyVisiting 2026 0 1 0 100
        [("watchlist", Val.arr [Val.str "123"])] =
      [("watchlist", Val.arr [Val.str "123"]),
       ("quarter:auto:2025Q4",
         Val.obj [("done", Val.bool true), ("at", Val.num 100)])]) ∧
    (lookupD (maybeStartQuarterlyVisiting 2026 0 1 0 100
        [("watchlist", Val.arr [Val.str "123"])]) "audit:job" = none) ∧
    (lookupD (maybeStartQuarterlyVisiting 2026 0 1 0 100
        [("watchlist", Val.arr [Val.str "123"])]) "audit:partial:visiting" =
      none) ∧
    (∀ (year month day hour : Nat) (nowTs : Int) (d : Doc),
      lookupD (maybeStartQuarterlyVisiting year month day hour nowTs d)
          "audit:job" =
        lookupD d "audit:job") := by
  refine ⟨rfl, rfl, rfl, ?_⟩
  intro year month day hour nowTs d
  unfold maybeStartQuarterlyVisiting
  by_cases hq : (month = 0 ∨ month = 3 ∨ month = 6 ∨ month = 9) ∧
      day = 1 ∧ hour = 0
  · rw [if_neg (not_not_intro hq)]
    dsimp only
    by_cases hdone : truthy
        (((lookupD d ("quarter:auto:" ++ quarterKeyForPrev year month))).getD
          Val.null) = true
    · rw [if_pos hdone]
    · rw [if_neg hdone]
      have h1 : ("quarter:auto:" ++ quarterKeyForPrev year month).data.head? =
          some 'q' := rfl
      have h2 : ("audit:job" : String).data.head? = some 'a' := rfl
      refine lookupA_setA_ne d _ _ _ (ne_of_data_head ?_)
      rw [h1, h2]
      decide
  · rw [if_pos hq]

-- ==================== C2: storeFlush ====================

/-- C2: `storeFlush` performs no PUT when not dirty; when dirty the first
PUT sends the local document with the last-observed SHA as precondition; on
a 409 with a successful re-fetch it PUTs exactly once more, sending the
shallow merge of the remote document under the local edits (local keys win,
per the final conjunct) with the remote SHA; every failure path throws with
the dirty flag still set, and the flag is cleared only on success.
(Hypothesis: at least 3 subrequests of budget remain, as on any real tick
reaching this point.) -/
theorem storeFlush_spec (st : StoreSt) (w : FlushWorld) (cnt : Nat)
    (hcnt : cnt + 3 ≤ SUBREQ_BUDGET_PER_TICK) :
    (st.dirty = false → storeFlush st w cnt = ⟨st, cnt, [], none⟩) ∧
    (st.dirty = true →
      (storeFlush st w cnt).puts.head? = some (st.doc, st.sha)) ∧
    (st.dirty = true → w.put1.ok = true →
      storeFlush st w cnt =
        ⟨⟨st.doc, (w.put1.sha).orElse (fun _ => st.sha), false⟩, cnt + 1,
          [(st.doc, st.sha)], none⟩) ∧
    (st.dirty = true → w.put1.ok = false → w.put1.status = 409 →
      w.get409.ok = true →
      ((storeFlush st w cnt).puts =
        [(st.doc, st.sha), (mergeUnder w.get409.json st.doc, w.get409.sha)] ∧
       (w.put2.ok = false → (storeFlush st w cnt).err.isSome = true ∧
          (storeFlush st w cnt).st.dirty = true) ∧
       (w.put2.ok = true → (storeFlush st w cnt).err = none ∧
          (storeFlush st w cnt).st.dirty = false ∧
          (storeFlush st w cnt).st.doc = mergeUnder w.get409.json st.doc))) ∧
    (st.dirty = true → w.put1.ok = false → w.put1.status ≠ 409 →
      (storeFlush st w cnt).err.isSome = true ∧
      (storeFlush st w cnt).st = st ∧ (storeFlush st w cnt).puts.length = 1) ∧
    (st.dirty = true → w.put1.ok = false → w.put1.status = 409 →
      w.get409.ok = false →
      (storeFlush st w cnt).err.isSome = true ∧
      (storeFlush st w cnt).st = st ∧ (storeFlush st w cnt).puts.length = 1) ∧
    (∀ k, lookupD (mergeUnder w.get409.json st.doc) k =
      (lookupD st.doc k).orElse (fun _ => lookupD w.get409.json k)) := by
  have hb0 : ¬ SUBREQ_BUDGET_PER_TICK ≤ cnt := by
    unfold SUBREQ_BUDGET_PER_TICK at *
    omega
  have hb1 : ¬ SUBREQ_BUDGET_PER_TICK ≤ cnt + 1 := by
    unfold SUBREQ_BUDGET_PER_TICK at *
    omega
  have hb2 : ¬ SUBREQ_BUDGET_PER_TICK ≤ cnt + 2 := by
    unfold SUBREQ_BUDGET_PER_TICK at *
    omega
  refine ⟨?_, ?_, ?_, ?_, ?_, ?_, lookup_mergeUnder w.get409.json st.doc⟩
  · intro hd
    unfold storeFlush
    simp [hd]
  · intro hd
    unfold storeFlush
    simp only [hd, Bool.not_true, if_neg (by simp : ¬ (true = false))]
    rw [ghPutM, if_neg hb0]
    by_cases h409 : w.put1.ok = false ∧ w.put1.status = 409
    · simp only [if_pos (by simp [h409.1, h409.2] :
        ¬ w.put1.ok = true ∧ w.put1.status = 409)]
      rw [ghGetM, if_neg hb1]
      by_cases hrem : w.get409.ok = true
      · simp only [if_pos hrem]
        rw [ghPutM, if_neg hb2]
        by_cases h2ok : w.put2.ok = true
        · simp [h2ok]
        · simp [h2ok]
      · simp [hrem]
    · by_cases h1ok : w.put1.ok = true
      · simp [h1ok]
      · simp only [Bool.not_eq_true] at h1ok
        have hst : ¬ w.put1.status = 409 := fun hs => h409 ⟨h1ok, hs⟩
        simp [h1ok, hst]
  · intro hd h1ok
    unfold storeFlush
    simp only [hd, Bool.not_true, if_neg (by simp : ¬ (true = false))]
    rw [ghPutM, if_neg hb0]
    simp [h1ok]
  · intro hd h1ok h1st hrem
    unfold storeFlush
    simp only [hd, Bool.not_true, if_neg (by simp : ¬ (true = false))]
    rw [ghPutM, if_neg hb0]
    simp only [h1ok, h1st, Bool.false_eq_true, not_false_eq_true, true_and,
      if_pos (by simp [h1ok, h1st] : ¬ w.put1.ok = true ∧ w.put1.status = 409)]
    rw [ghGetM, if_neg hb1]
    simp only [hrem, if_pos rfl]
    rw [ghPutM, if_neg hb2]
    by_cases h2ok : w.put2.ok = true
    · simp [h2ok]
    · simp [h2ok]
  · intro hd h1ok h1st
    unfold storeFlush
    simp only [hd, Bool.not_true, if_neg (by simp : ¬ (true = false))]
    rw [ghPutM, if_neg hb0]
    simp [h1ok, h1st]
  · intro hd h1ok h1st hrem
    unfold storeFlush
    simp only [hd, Bool.not_true, if_neg (by simp : ¬ (true = false))]
    rw [ghPutM, if_neg hb0]
    simp only [if_pos (by simp [h1ok, h1st] :
      ¬ w.put1.ok = true ∧ w.put1.status = 409)]
    rw [ghGetM, if_neg hb1]
    simp [hrem]

/-- Witness for `storeFlush_spec`: a dirty one-key store whose first PUT
hits 409, the re-fetch succeeds, and the retry PUT succeeds: exactly two
PUTs, the second carrying the merged document and remote SHA, ending clean. -/
theorem storeFlush_spec_witness :
    (storeFlush ⟨[("watchlist", Val.arr [])], some "sha0", true⟩
        ⟨⟨false, 409, none, "conflict"⟩,
         ⟨true, 200, some "sha1", [("online_state", Val.obj [])]⟩,
         ⟨true, 200, some "sha2", ""⟩⟩ 0).puts =
      [([("watchlist", Val.arr [])], some "sha0"),
       (mergeUnder [("online_state", Val.obj [])] [("watchlist", Val.arr [])],
        some "sha1")] ∧
    (storeFlush ⟨[("watchlist", Val.arr [])], some "sha0", true⟩
        ⟨⟨false, 409, none, "conflict"⟩,
         ⟨true, 200, some "sha1", [("online_state", Val.obj [])]⟩,
         ⟨true, 200, some "sha2", ""⟩⟩ 0).err = none ∧
    (storeFlush ⟨[("watchlist", Val.arr [])], some "sha0", true⟩
        ⟨⟨false, 409, none, "conflict"⟩,
         ⟨true, 200, some "sha1", [("online_state", Val.obj [])]⟩,
         ⟨true, 200, some "sha2", ""⟩⟩ 0).st.dirty = false := by
  have h := storeFlush_spec ⟨[("watchlist", Val.arr [])], some "sha0", true⟩
    ⟨⟨false, 409, none, "conflict"⟩,
     ⟨true, 200, some "sha1", [("online_state", Val.obj [])]⟩,
     ⟨true, 200, some "sha2", ""⟩⟩ 0 (by decide)
  have h4 := h.2.2.2.1 rfl rfl rfl rfl
  exact ⟨h4.1, (h4.2.2 rfl).1, (h4.2.2 rfl).2.1⟩

-- ==================== C8: store cleanup ====================

theorem lookupA_filter_keyq (q : String → Bool) (d : Doc) (k : String) :
    lookupA (d.filter (fun kv => q kv.1)) k =
      if q k = true then lookupA d k else none := by
  induction d with
  | nil => simp [lookupA]
  | cons hd tl ih =>
      obtain ⟨k0, v0⟩ := hd
      rw [List.filter_cons]
      by_cases hq : q k0 = true
      · rw [if_pos hq]
        by_cases h0 : k0 = k
        · subst h0
          simp [lookupA, hq]
        · simp [lookupA, h0, ih]
      · rw [if_neg hq]
        by_cases h0 : k0 = k
        · subst h0
          rw [ih, if_neg hq, if_neg hq]
        · simp [ih, lookupA, h0]

theorem contains_eq_false_iff {ks : List String} {a : String} :
    (ks.contains a = false) ↔ a ∉ ks := by
  simp

theorem mem_keysToDelete {now : Int} {d : Doc} {k : String} :
    k ∈ (d.filter (fun kv => shouldDelete now kv.1 kv.2)).map Prod.fst ↔
      ∃ v, (k, v) ∈ d ∧ shouldDelete now k v = true := by
  rw [List.mem_map]
  constructor
  · rintro ⟨kv, hkv, rfl⟩
    have h := List.mem_filter.mp hkv
    exact ⟨kv.2, h.1, by simpa using h.2⟩
  · rintro ⟨v, hv, hsd⟩
    exact ⟨(k, v), List.mem_filter.mpr ⟨hv, by simpa using hsd⟩, rfl⟩

theorem shouldDelete_spec {now : Int} {k : String} {v : Val}
    (h : shouldDelete now k v = true) :
    k ≠ STORE_CLEANUP_KEY ∧ truthy v = true ∧ isObjType v = true ∧
      ((∃ t, getNumField v "cached_at" = some t ∧ ttlFor k * 2 < now - t) ∨
       (∃ e, getNumField v "expiresAt" = some e ∧ e < now)) := by
  unfold shouldDelete at h
  by_cases h1 : k = STORE_CLEANUP_KEY
  · simp [h1] at h
  · rw [if_neg h1] at h
    by_cases h2 : truthy v = true ∧ isObjType v = true
    · refine ⟨h1, h2.1, h2.2, ?_⟩
      rw [if_neg (not_not_intro h2)] at h
      cases hca : getNumField v "cached_at" with
      | some t =>
          rw [hca] at h
          dsimp only at h
          by_cases h3 : ttlFor k * 2 < now - t
          · exact Or.inl ⟨t, rfl, h3⟩
          · rw [if_neg h3] at h
            unfold expiredAt at h
            cases hex : getNumField v "expiresAt" with
            | some e =>
                rw [hex] at h
                dsimp only at h
                exact Or.inr ⟨e, rfl, by simpa using h⟩
            | none =>
                rw [hex] at h
                simp at h
      | none =>
          rw [hca] at h
          dsimp only at h
          unfold expiredAt at h
          cases hex : getNumField v "expiresAt" with
          | some e =>
              rw [hex] at h
              dsimp only at h
              exact Or.inr ⟨e, rfl, by simpa using h⟩
          | none =>
              rw [hex] at h
              simp at h
    · rw [if_pos h2] at h
      exact absurd h (by simp)

theorem shouldDelete_false_of_no_stamps {now : Int} {k : String} {v : Val}
    (hca : getNumField v "cached_at" = none)
    (hex : getNumField v "expiresAt" = none) :
    shouldDelete now k v = false := by
  unfold shouldDelete
  by_cases h1 : k = STORE_CLEANUP_KEY
  · simp [h1]
  · rw [if_neg h1]
    by_cases h2 : truthy v = true ∧ isObjType v = true
    · rw [if_neg (not_not_intro h2), hca]
      unfold expiredAt
      rw [hex]
    · rw [if_pos h2]

theorem getNumField_arr (xs : List Val) (f : String) :
    getNumField (Val.arr xs) f = none := rfl

theorem getNumField_none_of_not_mem {fields : List (String × Val)} {f : String}
    (h : f ∉ fields.map Prod.fst) : getNumField (Val.obj fields) f = none := by
  simp [getNumField, lookupA_eq_none h, lookupD]

theorem cleanup_preserves {now : Int} {d : Doc} {k : String} {v : Val}
    (hk : k ≠ STORE_CLEANUP_KEY)
    (hv : lookupD d k = some v)
    (hnodel : ∀ v', (k, v') ∈ d → shouldDelete now k v' = false) :
    lookupD (maybeCleanupStore now d) k = some v := by
  unfold maybeCleanupStore
  by_cases hdue : cleanupDue now d = true
  · rw [if_pos hdue]
    unfold cleanupSweep
    dsimp only
    rw [show lookupD (setA (d.filter (fun kv =>
        !(((d.filter (fun kv => shouldDelete now kv.1 kv.2)).map
          Prod.fst).contains kv.1))) STORE_CLEANUP_KEY (Val.num now)) k =
        lookupA (d.filter (fun kv =>
        !(((d.filter (fun kv => shouldDelete now kv.1 kv.2)).map
          Prod.fst).contains kv.1))) k from
      lookupA_setA_ne _ _ _ _ hk]
    rw [lookupA_filter_keyq (fun key =>
      !(((d.filter (fun kv => shouldDelete now kv.1 kv.2)).map
        Prod.fst).contains key))]
    have hnc : k ∉ (d.filter (fun kv => shouldDelete now kv.1 kv.2)).map
        Prod.fst := by
      intro hmem
      obtain ⟨v', hv', hsd⟩ := mem_keysToDelete.mp hmem
      rw [hnodel v' hv'] at hsd
      exact absurd hsd (by simp)
    rw [if_pos (by rw [Bool.not_eq_true', contains_eq_false_iff]; exact hnc)]
    exact hv
  · rw [if_neg hdue]
    exact hv

/-- C8: a cleanup sweep deletes only truthy object-typed entries whose
numeric `cached_at` lies more than twice the prefix-determined TTL in the
past or whose numeric `expiresAt` has passed; the `watchlist` array, an
`online_state` object keyed by digit CIDs, an `audit:job` object with the
job schema's fields, every `audit:partial:<scope>` array, and the
`_last_cleanup` key itself all survive every sweep regardless of their age. -/
theorem maybeCleanupStore_spec (now : Int) (d : Doc)
    (hnd : (d.map Prod.fst).Nodup) :
    (∀ k v, lookupD d k = some v →
      lookupD (maybeCleanupStore now d) k = none →
      truthy v = true ∧ isObjType v = true ∧
        ((∃ t, getNumField v "cached_at" = some t ∧ ttlFor k * 2 < now - t) ∨
         (∃ e, getNumField v "expiresAt" = some e ∧ e < now))) ∧
    (∀ xs, lookupD d "watchlist" = some (Val.arr xs) →
      lookupD (maybeCleanupStore now d) "watchlist" = some (Val.arr xs)) ∧
    (∀ fields, lookupD d "online_state" = some (Val.obj fields) →
      (∀ kv ∈ fields, ∀ ch ∈ kv.1.data, ch.isDigit = true) →
      lookupD (maybeCleanupStore now d) "online_state" =
        some (Val.obj fields)) ∧
    (∀ fields, lookupD d "audit:job" = some (Val.obj fields) →
      (∀ kv ∈ fields, kv.1 ∈
        (["scope", "cids", "cursor", "total", "created_at"] : List String)) →
      lookupD (maybeCleanupStore now d) "audit:job" = some (Val.obj fields)) ∧
    (∀ scope xs, lookupD d ("audit:partial:" ++ scope) = some (Val.arr xs) →
      lookupD (maybeCleanupStore now d) ("audit:partial:" ++ scope) =
        some (Val.arr xs)) ∧
    (∀ v, lookupD d STORE_CLEANUP_KEY = some v →
      (lookupD (maybeCleanupStore now d) STORE_CLEANUP_KEY).isSome = true) := by
  refine ⟨?_, ?_, ?_, ?_, ?_, ?_⟩
  · intro k v hv hafter
    unfold maybeCleanupStore at hafter
    by_cases hdue : cleanupDue now d = true
    case neg =>
      rw [if_neg hdue, hv] at hafter
      exact absurd hafter (by simp)
    rw [if_pos hdue] at hafter
    unfold cleanupSweep at hafter
    dsimp only at hafter
    by_cases hk : k = STORE_CLEANUP_KEY
    · subst hk
      rw [show lookupD (setA (d.filter (fun kv =>
          !(((d.filter (fun kv => shouldDelete now kv.1 kv.2)).map
            Prod.fst).contains kv.1))) STORE_CLEANUP_KEY (Val.num now))
            STORE_CLEANUP_KEY = some (Val.num now) from
        lookupA_setA_self _ _ _] at hafter
      exact absurd hafter (by simp)
    · rw [show lookupD (setA (d.filter (fun kv =>
          !(((d.filter (fun kv => shouldDelete now kv.1 kv.2)).map
            Prod.fst).contains kv.1))) STORE_CLEANUP_KEY (Val.num now)) k =
          lookupA (d.filter (fun kv =>
          !(((d.filter (fun kv => shouldDelete now kv.1 kv.2)).map
            Prod.fst).contains kv.1))) k from
        lookupA_setA_ne _ _ _ _ hk] at hafter
      rw [lookupA_filter_keyq (fun key =>
        !(((d.filter (fun kv => shouldDelete now kv.1 kv.2)).map
          Prod.fst).contains key))] at hafter
      by_cases hc : k ∈ (d.filter (fun kv =>
          shouldDelete now kv.1 kv.2)).map Prod.fst
      · obtain ⟨v', hv', hsd⟩ := mem_keysToDelete.mp hc
        have h2 := mem_of_nodupKeys hnd hv'
        have hvv : v' = v := (Option.some.inj (hv.symm.trans h2)).symm
        subst hvv
        exact (shouldDelete_spec hsd).2
      · have hcond : (!(((d.filter (fun kv => shouldDelete now kv.1 kv.2)).map
            Prod.fst).contains k)) = true := by
          rw [Bool.not_eq_true', contains_eq_false_iff]
          exact hc
        rw [if_pos hcond] at hafter
        exact absurd (hv.symm.trans hafter) (by simp)
  · intro xs hv
    refine cleanup_preserves (by decide) hv ?_
    intro v' hv'
    have h2 := mem_of_nodupKeys hnd hv'
    have hv2 : v' = Val.arr xs := (Option.some.inj (hv.symm.trans h2)).symm
    subst hv2
    exact shouldDelete_false_of_no_stamps (getNumField_arr xs _)
      (getNumField_arr xs _)
  · intro fields hv hdig
    refine cleanup_preserves (by decide) hv ?_
    intro v' hv'
    have h2 := mem_of_nodupKeys hnd hv'
    have hv2 : v' = Val.obj fields := (Option.some.inj (hv.symm.trans h2)).symm
    subst hv2
    refine shouldDelete_false_of_no_stamps (getNumField_none_of_not_mem ?_)
      (getNumField_none_of_not_mem ?_)
    · intro hmem
      rw [List.mem_map] at hmem
      obtain ⟨kv, hkv, hfst⟩ := hmem
      have hch := hdig kv hkv 'c' (by rw [hfst]; decide)
      exact absurd hch (by decide)
    · intro hmem
      rw [List.mem_map] at hmem
      obtain ⟨kv, hkv, hfst⟩ := hmem
      have hch := hdig kv hkv 'x' (by rw [hfst]; decide)
      exact absurd hch (by decide)
  · intro fields hv hkeys
    refine cleanup_preserves (by decide) hv ?_
    intro v' hv'
    have h2 := mem_of_nodupKeys hnd hv'
    have hv2 : v' = Val.obj fields := (Option.some.inj (hv.symm.trans h2)).symm
    subst hv2
    refine shouldDelete_false_of_no_stamps (getNumField_none_of_not_mem ?_)
      (getNumField_none_of_not_mem ?_)
    · intro hmem
      rw [List.mem_map] at hmem
      obtain ⟨kv, hkv, hfst⟩ := hmem
      have hin := hkeys kv hkv
      rw [hfst] at hin
      exact absurd hin (by decide)
    · intro hmem
      rw [List.mem_map] at hmem
      obtain ⟨kv, hkv, hfst⟩ := hmem
      have hin := hkeys kv hkv
      rw [hfst] at hin
      exact absurd hin (by decide)
  · intro scope xs hv
    refine cleanup_preserves (ne_of_data_head ?_) hv ?_
    · rw [show ("audit:partial:" ++ scope).data.head? = some 'a' from rfl,
        show (STORE_CLEANUP_KEY : String).data.head? = some '_' from rfl]
      decide
    · intro v' hv'
      have h2 := mem_of_nodupKeys hnd hv'
      have hv2 : v' = Val.arr xs := (Option.some.inj (hv.symm.trans h2)).symm
      subst hv2
      exact shouldDelete_false_of_no_stamps (getNumField_arr xs _)
        (getNumField_arr xs _)
  · intro v hv
    unfold maybeCleanupStore
    by_cases hdue : cleanupDue now d = true
    · rw [if_pos hdue]
      unfold cleanupSweep
      dsimp only
      rw [show lookupD (setA (d.filter (fun kv =>
          !(((d.filter (fun kv => shouldDelete now kv.1 kv.2)).map
            Prod.fst).contains kv.1))) STORE_CLEANUP_KEY (Val.num now))
            STORE_CLEANUP_KEY = some (Val.num now) from
        lookupA_setA_self _ _ _]
      rfl
    · rw [if_neg hdue, hv]
      rfl

/-- Witness for `maybeCleanupStore_spec`: a due sweep over a store holding
the watchlist, a doubly-stale `rating:` entry and the cleanup marker keeps
the watchlist and marker while the stale cache entry is deleted. -/
theorem maybeCleanupStore_spec_witness :
    lookupD (maybeCleanupStore 1000000
      [("watchlist", Val.arr [Val.str "123"]),
       ("rating:123", Val.obj [("cached_at", Val.num 0)]),
       ("_last_cleanup", Val.num 0)]) "watchlist" =
      some (Val.arr [Val.str "123"]) ∧
    lookupD (maybeCleanupStore 1000000
      [("watchlist", Val.arr [Val.str "123"]),
       ("rating:123", Val.obj [("cached_at", Val.num 0)]),
       ("_last_cleanup", Val.num 0)]) "rating:123" = none ∧
    (lookupD (maybeCleanupStore 1000000
      [("watchlist", Val.arr [Val.str "123"]),
       ("rating:123", Val.obj [("cached_at", Val.num 0)]),
       ("_last_cleanup", Val.num 0)]) STORE_CLEANUP_KEY).isSome = true := by
  have h := maybeCleanupStore_spec 1000000
    [("watchlist", Val.arr [Val.str "123"]),
     ("rating:123", Val.obj [("cached_at", Val.num 0)]),
     ("_last_cleanup", Val.num 0)] (by decide)
  exact ⟨h.2.1 [Val.str "123"] rfl, rfl, h.2.2.2.2.2 (Val.num 0) rfl⟩

-- ==================== C6: presence tracker ====================

theorem presenceStep_nochange {p : List (String × PInfo)} {now : Int}
    {s : List (String × PEntry)} {c : Bool} {x : String}
    (h : statusChanged s p x = false) :
    presenceStep p now (s, c) x = (s, c) := by
  unfold statusChanged at h
  unfold presenceStep
  dsimp only
  cases hx : lookupA p x with
  | some info =>
      rw [hx] at h
      cases hw : wasOnlineAt s x with
      | false =>
          rw [hw] at h
          simp at h
      | true => simp [hw]
  | none =>
      rw [hx] at h
      cases hw : wasOnlineAt s x with
      | false => simp [hw]
      | true =>
          rw [hw] at h
          simp at h

theorem presenceStep_lookup_self (p : List (String × PInfo)) (now : Int)
    (s : List (String × PEntry)) (c : Bool) (x : String) :
    lookupA (presenceStep p now (s, c) x).1 x = newEntryAt s p now x := by
  unfold presenceStep newEntryAt
  dsimp only
  cases hx : lookupA p x with
  | some info =>
      cases hw : wasOnlineAt s x with
      | false => simp [lookupA_setA_self]
      | true => simp
  | none =>
      cases hw : wasOnlineAt s x with
      | false => simp
      | true => simp [lookupA_setA_self]

theorem presenceStep_lookup_other (p : List (String × PInfo)) (now : Int)
    (s : List (String × PEntry)) (c : Bool) (x k : String) (hk : k ≠ x) :
    lookupA (presenceStep p now (s, c) x).1 k = lookupA s k := by
  unfold presenceStep
  dsimp only
  cases hx : lookupA p x with
  | some info =>
      cases hw : wasOnlineAt s x with
      | false => simp [lookupA_setA_ne _ _ _ _ hk]
      | true => simp
  | none =>
      cases hw : wasOnlineAt s x with
      | false => simp
      | true => simp [lookupA_setA_ne _ _ _ _ hk]

theorem presenceStep_snd (p : List (String × PInfo)) (now : Int)
    (s : List (String × PEntry)) (c : Bool) (x : String) :
    (presenceStep p now (s, c) x).2 = (c || statusChanged s p x) := by
  unfold presenceStep statusChanged
  dsimp only
  cases hx : lookupA p x with
  | some info =>
      cases hw : wasOnlineAt s x with
      | false => simp
      | true => simp
  | none =>
      cases hw : wasOnlineAt s x with
      | false => simp
      | true => simp

theorem newEntryAt_congr {s1 s : List (String × PEntry)}
    {p : List (String × PInfo)} {now : Int} {k : String}
    (h : lookupA s1 k = lookupA s k) :
    newEntryAt s1 p now k = newEntryAt s p now k := by
  unfold newEntryAt wasOnlineAt prevInfoAt
  rw [h]

theorem statusChanged_congr {s1 s : List (String × PEntry)}
    {p : List (String × PInfo)} {k : String}
    (h : lookupA s1 k = lookupA s k) :
    statusChanged s1 p k = statusChanged s p k := by
  unfold statusChanged wasOnlineAt
  rw [h]

theorem any_congr_mem {ks : List String} {f g : String → Bool}
    (h : ∀ k ∈ ks, f k = g k) : ks.any f = ks.any g := by
  induction ks with
  | nil => rfl
  | cons x ks ih =>
      simp only [List.any_cons, h x (by simp),
        ih (fun k hk => h k (by simp [hk]))]

theorem foldl_presence_id (p : List (String × PInfo)) (now : Int) :
    ∀ (ks : List String) (s : List (String × PEntry)) (c : Bool),
    (∀ k ∈ ks, statusChanged s p k = false) →
    ks.foldl (presenceStep p now) (s, c) = (s, c) := by
  intro ks
  induction ks with
  | nil =>
      intro s c _
      rfl
  | cons x ks ih =>
      intro s c h
      rw [List.foldl_cons, presenceStep_nochange (h x (by simp))]
      exact ih s c (fun k hk => h k (by simp [hk]))

theorem foldl_presence_spec (p : List (String × PInfo)) (now : Int) :
    ∀ (ks : List String) (s : List (String × PEntry)) (c : Bool),
    ks.Nodup →
    ((∀ k, k ∈ ks → lookupA (ks.foldl (presenceStep p now) (s, c)).1 k =
        newEntryAt s p now k) ∧
     (∀ k, k ∉ ks → lookupA (ks.foldl (presenceStep p now) (s, c)).1 k =
        lookupA s k) ∧
     (ks.foldl (presenceStep p now) (s, c)).2 =
        (c || ks.any (fun k => statusChanged s p k))) := by
  intro ks
  induction ks with
  | nil =>
      intro s c _
      exact ⟨by simp, fun k _ => rfl, by simp⟩
  | cons x ks ih =>
      intro s c hnd
      rw [List.nodup_cons] at hnd
      obtain ⟨hx_not, hnd'⟩ := hnd
      rw [List.foldl_cons,
        show presenceStep p now (s, c) x =
          ((presenceStep p now (s, c) x).1, (presenceStep p now (s, c) x).2)
          from rfl]
      obtain ⟨ih1, ih2, ih3⟩ :=
        ih (presenceStep p now (s, c) x).1 (presenceStep p now (s, c) x).2 hnd'
      refine ⟨?_, ?_, ?_⟩
      · intro k hk
        rcases List.mem_cons.mp hk with rfl | hk'
        · rw [ih2 k hx_not, presenceStep_lookup_self]
        · have hkx : k ≠ x := by
            intro he
            subst he
            exact hx_not hk'
          rw [ih1 k hk']
          exact newEntryAt_congr (presenceStep_lookup_other p now s c x k hkx)
      · intro k hk
        have hkx : k ≠ x := fun he => hk (he ▸ List.mem_cons_self x ks)
        have hk' : k ∉ ks := fun hm => hk (List.mem_cons_of_mem x hm)
        rw [ih2 k hk']
        exact presenceStep_lookup_other p now s c x k hkx
      · rw [ih3, presenceStep_snd, List.any_cons, Bool.or_assoc]
        have hany : ks.any (fun k => statusChanged (presenceStep p now (s, c) x).1 p k) =
            ks.any (fun k => statusChanged s p k) := by
          refine any_congr_mem ?_
          intro k hk
          have hkx : k ≠ x := by
            intro he
            subst he
            exact hx_not hk
          exact statusChanged_congr (presenceStep_lookup_other p now s c x k hkx)
        rw [hany]

theorem runPresence_lookup (s : List (String × PEntry))
    (p : List (String × PInfo)) (now : Int) (k : String) :
    lookupA (runPresence s p now).1 k = newEntryAt s p now k := by
  unfold runPresence
  dsimp only
  have hnd := nodup_dedupFirst [] (s.map Prod.fst ++ p.map Prod.fst)
  obtain ⟨h1, h2, _⟩ := foldl_presence_spec p now
    (dedupFirst [] (s.map Prod.fst ++ p.map Prod.fst)) s false hnd
  by_cases hk : k ∈ dedupFirst [] (s.map Prod.fst ++ p.map Prod.fst)
  · exact h1 k hk
  · rw [h2 k hk]
    have hk2 : k ∉ s.map Prod.fst ++ p.map Prod.fst := by
      intro hm
      exact hk (mem_dedupFirst.mpr ⟨hm, by simp⟩)
    rw [List.mem_append] at hk2
    push_neg at hk2
    have hsk : lookupA s k = none := lookupA_eq_none hk2.1
    have hpk : lookupA p k = none := lookupA_eq_none hk2.2
    simp [newEntryAt, wasOnlineAt, hsk, hpk]

theorem runPresence_snd (s : List (String × PEntry))
    (p : List (String × PInfo)) (now : Int) :
    (runPresence s p now).2 =
      (dedupFirst [] (s.map Prod.fst ++ p.map Prod.fst)).any
        (fun k => statusChanged s p k) := by
  unfold runPresence
  dsimp only
  have hnd := nodup_dedupFirst [] (s.map Prod.fst ++ p.map Prod.fst)
  obtain ⟨_, _, h3⟩ := foldl_presence_spec p now
    (dedupFirst [] (s.map Prod.fst ++ p.map Prod.fst)) s false hnd
  rw [h3]
  simp

theorem statusChanged_mem_keys {s : List (String × PEntry)}
    {p : List (String × PInfo)} {k : String}
    (h : statusChanged s p k = true) :
    k ∈ s.map Prod.fst ++ p.map Prod.fst := by
  unfold statusChanged at h
  rw [List.mem_append]
  cases hp : lookupA p k with
  | some info => exact Or.inr (lookupA_mem hp).2
  | none =>
      rw [hp] at h
      simp only [Option.isSome_none, Bool.false_bne] at h
      unfold wasOnlineAt at h
      cases hs : lookupA s k with
      | some e => exact Or.inl (lookupA_mem hs).2
      | none =>
          rw [hs] at h
          simp at h

theorem statusChanged_after (s : List (String × PEntry))
    (p : List (String × PInfo)) (now : Int) (k : String) :
    statusChanged (runPresence s p now).1 p k = false := by
  have hl := runPresence_lookup s p now k
  unfold statusChanged wasOnlineAt
  rw [hl]
  unfold newEntryAt
  cases hp : lookupA p k with
  | some info =>
      cases hw : wasOnlineAt s k with
      | false => simp
      | true =>
          unfold wasOnlineAt at hw
          cases hs : lookupA s k with
          | none =>
              rw [hs] at hw
              simp at hw
          | some e =>
              rw [hs] at hw
              dsimp only at hw
              simp only [hs]
              simp [hw]
  | none =>
      cases hw : wasOnlineAt s k with
      | false =>
          unfold wasOnlineAt at hw
          cases hs : lookupA s k with
          | none => simp [hs]
          | some e =>
              rw [hs] at hw
              dsimp only at hw
              simp only [hs]
              simp [hw]
      | true => simp

/-- C6: `runPresence` reports a state write (the `changed` flag that gates
`kvPutJSON(KV.STATE, ...)`) exactly when at least one CID changed online
status; when nothing changed the returned state object is the input one, so
nothing is written; an offline→online transition stores
`{online: true, last_change: now, last_info: current feed info}`; an
online→offline transition stores `{online: false, last_change: now,
last_info: previous last_info}`; and running again on the same feed map
returns the same state with `changed = false` — presence converges after
one tick of a stable feed. -/
theorem runPresence_spec (s : List (String × PEntry))
    (p : List (String × PInfo)) (now : Int) :
    ((runPresence s p now).2 = true ↔ ∃ k, statusChanged s p k = true) ∧
    ((runPresence s p now).2 = false → (runPresence s p now).1 = s) ∧
    (∀ k info, lookupA p k = some info → wasOnlineAt s k = false →
      lookupA (runPresence s p now).1 k = some ⟨true, now, some info⟩) ∧
    (∀ k, lookupA p k = none → wasOnlineAt s k = true →
      lookupA (runPresence s p now).1 k =
        some ⟨false, now, prevInfoAt s k⟩) ∧
    (∀ now2 : Int, runPresence (runPresence s p now).1 p now2 =
      ((runPresence s p now).1, false)) := by
  refine ⟨?_, ?_, ?_, ?_, ?_⟩
  · rw [runPresence_snd]
    constructor
    · intro h
      rw [List.any_eq_true] at h
      obtain ⟨k, _, hk⟩ := h
      exact ⟨k, hk⟩
    · rintro ⟨k, hk⟩
      rw [List.any_eq_true]
      exact ⟨k, mem_dedupFirst.mpr ⟨statusChanged_mem_keys hk, by simp⟩, hk⟩
  · intro h
    rw [runPresence_snd] at h
    have hall := List.any_eq_false.mp h
    have hfold := foldl_presence_id p now
      (dedupFirst [] (s.map Prod.fst ++ p.map Prod.fst)) s false
      (fun k hk => Bool.eq_false_iff.mpr (hall k hk))
    show ((dedupFirst [] (s.map Prod.fst ++ p.map Prod.fst)).foldl
        (presenceStep p now) (s, false)).1 = s
    rw [hfold]
  · intro k info hp hw
    rw [runPresence_lookup]
    simp [newEntryAt, hp, hw]
  · intro k hp hw
    rw [runPresence_lookup]
    simp [newEntryAt, hp, hw]
  · intro now2
    show (dedupFirst [] ((runPresence s p now).1.map Prod.fst ++
        p.map Prod.fst)).foldl (presenceStep p now2)
        ((runPresence s p now).1, false) =
      ((runPresence s p now).1, false)
    exact foldl_presence_id p now2 _ _ false
      (fun k _ => statusChanged_after s p now k)

/-- Witness for `runPresence_spec`: a single previously-online CID with an
empty feed goes offline keeping its last_info, and a second run on the same
feed is a no-op. -/
theorem runPresence_spec_witness :
    lookupA (runPresence
        [("123", ⟨true, 10, some ⟨"SY_TWR", none, none, 5⟩⟩)] [] 50).1
        "123" =
      some ⟨false, 50, some ⟨"SY_TWR", none, none, 5⟩⟩ ∧
    runPresence (runPresence
        [("123", ⟨true, 10, some ⟨"SY_TWR", none, none, 5⟩⟩)] [] 50).1 [] 60 =
      ((runPresence
        [("123", ⟨true, 10, some ⟨"SY_TWR", none, none, 5⟩⟩)] [] 50).1,
        false) := by
  have h := runPresence_spec
    [("123", ⟨true, 10, some ⟨"SY_TWR", none, none, 5⟩⟩)] [] 50
  exact ⟨h.2.2.2.1 "123" rfl rfl, h.2.2.2.2 60⟩
